import Mathlib

/-!
Verification of the vnstock incremental-load pipeline.

Shallow embedding of the pipeline of this repository:
  * `DataOrchestrator._delete_unnecessary_records_from_df` (incremental anti-join filter),
  * `DBInterface.upsert_data_to_db` (staged bulk upsert with insert/update counts),
  * `util.clean_dataframe` (column conformance and duplicate elimination),
  * `util.transform_df` (period-label extraction),
  * `util.get_table_schemas_from_sql` (line-based DDL parser),
  * the orchestrator's load-ordering sort in `DataOrchestrator.run`.

A pandas DataFrame is modelled as a list of column names together with a list
of rows; a cell is `Option V` where `none` stands for NULL/NaN.  pandas `merge`
and `drop_duplicates` treat NaN key cells as equal to each other, so plain
decidable equality on `Option V` is the right notion of cell equality for key
comparison.
-/

deriving instance DecidableEq for Except

namespace Vnstock

/-- A row of a DataFrame: one cell per column, `none` standing for NULL/NaN. -/
abbrev Row (V : Type) := List (Option V)

variable {V : Type} [DecidableEq V]

/-- The tuple of key cells of a row, looked up by column name.  The outer
`Option` is `none` when a key column is missing from the column list (pandas
raises there; theorems assume the key columns are present). -/
def rowKey (cols pks : List String) (r : Row V) : List (Option (Option V)) :=
  pks.map (fun pk => r[cols.indexOf pk]?)

/-- Apply `f` to the cells of the column named `c` (pandas
`df[c] = f(df[c])` applied row-wise). -/
def applyAtCol (cols : List String) (c : String) (f : Option V → Option V) (r : Row V) : Row V :=
  r.mapIdx (fun i x => if cols[i]? = some c then f x else x)

/-- Embedding of the date-normalisation step of
`DataOrchestrator._delete_unnecessary_records_from_df`: when `date` is one of
the primary keys, both sides of the join are passed through
`pd.to_datetime` on their `date` column (`nd` abstracts that conversion). -/
def normalizeDates (cols pks : List String) (nd : Option V → Option V)
    (rows : List (Row V)) : List (Row V) :=
  if "date" ∈ pks then rows.map (applyAtCol cols "date" nd) else rows

/-- Embedding of
`df.merge(db_df[primary_keys], on=primary_keys, how="left", indicator=True)`:
each left row yields one output row per matching right row tagged `true`
(pandas `both`), or a single output row tagged `false` (pandas `left_only`)
when no right row matches on the key columns. -/
def mergeLeftIndicator (cols pks : List String) (dfRows dbRows : List (Row V)) :
    List (Row V × Bool) :=
  dfRows.flatMap (fun r =>
    let ms := dbRows.filter (fun d => decide (rowKey cols pks d = rowKey cols pks r))
    if ms.isEmpty then [(r, false)] else ms.map (fun _ => (r, true)))

/-- Embedding of `DataOrchestrator._delete_unnecessary_records_from_df`
(src/DataOrchestrator/DataOrchestrator.py, lines 100-137).  `dbRows` plays the
role of the records fetched from the database (pandas builds `db_df` over the
same column list as `df`); when it is empty the input is returned unchanged;
otherwise the `date` column of both sides is normalised if `date` is a key,
the left merge with indicator is computed, the `left_only` rows are kept and
the indicator column is dropped. -/
def deleteUnnecessaryRecordsFromDf (cols pks : List String) (nd : Option V → Option V)
    (dfRows dbRows : List (Row V)) : List (Row V) :=
  if dbRows.isEmpty then dfRows
  else
    let dfN := normalizeDates cols pks nd dfRows
    let dbN := normalizeDates cols pks nd dbRows
    ((mergeLeftIndicator cols pks dfN dbN).filter (fun p => !p.2)).map Prod.fst

lemma mergeLeftIndicator_filter (cols pks : List String) (dfRows dbRows : List (Row V)) :
    ((mergeLeftIndicator cols pks dfRows dbRows).filter (fun p => !p.2)).map Prod.fst
      = dfRows.filter
          (fun r => !(dbRows.any (fun d => decide (rowKey cols pks d = rowKey cols pks r)))) := by
  induction dfRows with
  | nil => simp [mergeLeftIndicator]
  | cons r rs ih =>
    have hsplit : mergeLeftIndicator cols pks (r :: rs) dbRows
        = (if (dbRows.filter (fun d => decide (rowKey cols pks d = rowKey cols pks r))).isEmpty
           then [(r, false)]
           else (dbRows.filter
              (fun d => decide (rowKey cols pks d = rowKey cols pks r))).map (fun _ => (r, true)))
          ++ mergeLeftIndicator cols pks rs dbRows := by
      simp only [mergeLeftIndicator, List.flatMap_cons]
    rw [hsplit, List.filter_append, List.map_append, ih, List.filter_cons]
    by_cases hb : dbRows.any (fun d => decide (rowKey cols pks d = rowKey cols pks r)) = true
    · have hne : dbRows.filter (fun d => decide (rowKey cols pks d = rowKey cols pks r)) ≠ [] := by
        rcases List.any_eq_true.mp hb with ⟨d, hd, hpd⟩
        intro hnil
        have hmem : d ∈ dbRows.filter (fun d => decide (rowKey cols pks d = rowKey cols pks r)) :=
          List.mem_filter.mpr ⟨hd, hpd⟩
        rw [hnil] at hmem
        exact absurd hmem (List.not_mem_nil d)
      rw [if_neg (by simpa [List.isEmpty_iff] using hne)]
      have hdrop :
          ((dbRows.filter (fun d => decide (rowKey cols pks d = rowKey cols pks r))).map
              (fun _ => (r, true))).filter (fun p => !p.2) = [] := by
        rw [List.filter_eq_nil_iff]
        intro p hp
        rcases List.mem_map.mp hp with ⟨d, _, hpd⟩
        subst hpd
        simp
      rw [hdrop]
      simp [hb]
    · have hb' : dbRows.any (fun d => decide (rowKey cols pks d = rowKey cols pks r)) = false :=
        eq_false_of_ne_true hb
      have hnil : dbRows.filter (fun d => decide (rowKey cols pks d = rowKey cols pks r)) = [] := by
        rw [List.filter_eq_nil_iff]
        intro d hd
        simpa using List.any_eq_false.mp hb' d hd
      rw [if_pos (by simp [hnil])]
      simp [hb']

/-- C1: the incremental filter `_delete_unnecessary_records_from_df` is an
anti-join on the full primary-key tuple: with no persisted records the input
passes through unchanged; otherwise a (date-normalised) row is retained iff
its full key tuple matches no persisted record, so a row agreeing with a
persisted key on some but not all key columns is retained, and the result is
empty when every input key is persisted.  The hypothesis that the key columns
occur in the column list marks the domain on which the pandas merge does not
raise a `KeyError`. -/
theorem delete_unnecessary_records_anti_join
    (cols pks : List String) (nd : Option V → Option V) (dfRows dbRows : List (Row V))
    (hpk : ∀ p ∈ pks, p ∈ cols) :
    (dbRows = [] → deleteUnnecessaryRecordsFromDf cols pks nd dfRows dbRows = dfRows) ∧
    (dbRows ≠ [] →
      deleteUnnecessaryRecordsFromDf cols pks nd dfRows dbRows
        = (normalizeDates cols pks nd dfRows).filter
            (fun r => !((normalizeDates cols pks nd dbRows).any
                (fun d => decide (rowKey cols pks d = rowKey cols pks r))))) ∧
    (dbRows ≠ [] → ∀ r,
      r ∈ deleteUnnecessaryRecordsFromDf cols pks nd dfRows dbRows ↔
        r ∈ normalizeDates cols pks nd dfRows ∧
          ∀ d ∈ normalizeDates cols pks nd dbRows, rowKey cols pks d ≠ rowKey cols pks r) ∧
    (dbRows ≠ [] →
      (∀ r ∈ normalizeDates cols pks nd dfRows,
        ∃ d ∈ normalizeDates cols pks nd dbRows, rowKey cols pks d = rowKey cols pks r) →
      deleteUnnecessaryRecordsFromDf cols pks nd dfRows dbRows = []) := by
  have hchar : dbRows ≠ [] →
      deleteUnnecessaryRecordsFromDf cols pks nd dfRows dbRows
        = (normalizeDates cols pks nd dfRows).filter
            (fun r => !((normalizeDates cols pks nd dbRows).any
                (fun d => decide (rowKey cols pks d = rowKey cols pks r)))) := by
    intro hne
    unfold deleteUnnecessaryRecordsFromDf
    rw [if_neg (by simpa [List.isEmpty_iff] using hne)]
    exact mergeLeftIndicator_filter cols pks _ _
  refine ⟨?_, hchar, ?_, ?_⟩
  · intro h
    unfold deleteUnnecessaryRecordsFromDf
    rw [if_pos (by simp [h])]
  · intro hne r
    rw [hchar hne, List.mem_filter]
    constructor
    · rintro ⟨hmem, hcond⟩
      simp only [Bool.not_eq_true', List.any_eq_false, decide_eq_false_iff_not] at hcond
      exact ⟨hmem, fun d hd => by simpa using hcond d hd⟩
    · rintro ⟨hmem, hcond⟩
      refine ⟨hmem, ?_⟩
      simp only [Bool.not_eq_true', List.any_eq_false, decide_eq_false_iff_not]
      exact fun d hd => by simpa using hcond d hd
  · intro hne hall
    rw [hchar hne, List.filter_eq_nil_iff]
    intro r hr
    rcases hall r hr with ⟨d, hd, hkey⟩
    simp only [Bool.not_eq_true', List.any_eq_false, decide_eq_false_iff_not]
    intro hcontra
    exact hcontra d hd (by simpa using hkey)

/-- C1 witness: a concrete run with two staged rows and one persisted key
matching one of them; the partially-matching row survives. -/
theorem delete_unnecessary_records_anti_join_witness :
    (∀ p ∈ ["t", "y"], p ∈ ["t", "y"]) ∧
    deleteUnnecessaryRecordsFromDf (V := Nat) ["t", "y"] ["t", "y"] id
      [[some 1, some 1], [some 1, some 2]] [[some 1, some 2]] = [[some 1, some 1]] :=
  ⟨by decide,
    ((delete_unnecessary_records_anti_join (V := Nat) ["t", "y"] ["t", "y"] id
        [[some 1, some 1], [some 1, some 2]] [[some 1, some 2]]
        (by decide)).2.1 (by decide)).trans (by decide)⟩

/-! ## DBInterface.upsert_data_to_db (src/DBInterface/DBInterface.py, lines 89-181)

The call runs, inside one transaction on the session's connection:
`CREATE TEMP TABLE`, `COPY` of the DataFrame into the staging table, two
`COUNT` queries, the `INSERT ... ON CONFLICT ... DO UPDATE` merge, an explicit
`DROP TABLE` of the staging table, and finally `COMMIT`.  Each statement can
fail; a failure propagates out of the function (there is no try/finally and no
rollback in the function body), so the already-created staging table stays
allocated in the session and the transaction is left uncommitted.  The model
runs the statements in program order against an abstract failure oracle and
records the committed target table, whether the staging table is still
allocated at exit, and which statements were issued. -/

/-- One SQL statement issued by `upsert_data_to_db`, in program order. -/
inductive DBStep
  | createTemp
  | copyDf
  | countTemp
  | countMatch
  | insertMerge
  | dropTemp
  | commit
deriving DecidableEq

/-- How a call to `upsert_data_to_db` exits: normal return with the reported
counts, the explicit `ValueError` for a missing primary-key list, or a
database error propagating from one of the statements. -/
inductive UpsertExit
  | ok (inserted updated : Int)
  | valueError
  | dbError (s : DBStep)
deriving DecidableEq

/-- Observable outcome of a call: exit status, the committed contents of the
target table after the call, whether the per-call staging table is still
allocated in the session when the call exits, and the statements issued. -/
structure UpsertOutcome (V : Type) where
  exit : UpsertExit
  target : List (Row V)
  tempLive : Bool
  steps : List DBStep
deriving DecidableEq

/-- Number of row pairs produced by
`SELECT COUNT(*) FROM target t JOIN temp tt ON t.pk = tt.pk AND ...`. -/
def joinPairCount (cols pks : List String) (target staged : List (Row V)) : Nat :=
  (target.flatMap (fun t =>
    staged.filter (fun s => decide (rowKey cols pks t = rowKey cols pks s)))).length

/-- Result row of `ON CONFLICT DO UPDATE SET c = EXCLUDED.c` for all non-key
columns `c`: key cells keep the target's values (equal to the staged ones
anyway), non-key cells take the staged values.  When every column is a key
the statement degenerates to `DO NOTHING`, which this function also models
because it then returns `t` itself. -/
def overwriteNonPk (cols pks : List String) (t s : Row V) : Row V :=
  (cols.zip (t.zip s)).map (fun p => if p.1 ∈ pks then p.2.1 else p.2.2)

/-- Table contents produced by
`INSERT INTO target (cols) SELECT cols FROM temp ON CONFLICT (pks) DO UPDATE ...`:
every target row conflicting with a staged row is overwritten on its non-key
columns, and every staged row whose key is absent from the target is inserted. -/
def mergeUpsert (cols pks : List String) (target staged : List (Row V)) : List (Row V) :=
  target.map (fun t =>
    match staged.find? (fun s => decide (rowKey cols pks t = rowKey cols pks s)) with
    | some s => overwriteNonPk cols pks t s
    | none => t)
  ++ staged.filter (fun s =>
      !(target.any (fun t => decide (rowKey cols pks t = rowKey cols pks s))))

/-- Embedding of `DBInterface.upsert_data_to_db`.  `df = none` models passing
`None`; the failure oracle `F` tells which SQL statement (if any) raises. -/
def upsert_data_to_db (cols pks : List String) (target : List (Row V))
    (df : Option (List (Row V))) (F : DBStep → Bool) : UpsertOutcome V :=
  match df with
  | none => ⟨.ok 0 0, target, false, []⟩
  | some rows =>
    if rows.isEmpty then ⟨.ok 0 0, target, false, []⟩
    else if pks.isEmpty then ⟨.valueError, target, false, []⟩
    else if F .createTemp then ⟨.dbError .createTemp, target, false, [.createTemp]⟩
    else if F .copyDf then
      ⟨.dbError .copyDf, target, true, [.createTemp, .copyDf]⟩
    else if F .countTemp then
      ⟨.dbError .countTemp, target, true, [.createTemp, .copyDf, .countTemp]⟩
    else if F .countMatch then
      ⟨.dbError .countMatch, target, true, [.createTemp, .copyDf, .countTemp, .countMatch]⟩
    else if F .insertMerge then
      ⟨.dbError .insertMerge, target, true,
        [.createTemp, .copyDf, .countTemp, .countMatch, .insertMerge]⟩
    else if F .dropTemp then
      ⟨.dbError .dropTemp, target, true,
        [.createTemp, .copyDf, .countTemp, .countMatch, .insertMerge, .dropTemp]⟩
    else if F .commit then
      -- a failed COMMIT aborts the transaction, which also rolls back the
      -- in-transaction creation of the staging table
      ⟨.dbError .commit, target, false,
        [.createTemp, .copyDf, .countTemp, .countMatch, .insertMerge, .dropTemp, .commit]⟩
    else
      let tempCount : Int := rows.length
      let matchCount : Int := joinPairCount cols pks target rows
      ⟨.ok (tempCount - matchCount) matchCount, mergeUpsert cols pks target rows, false,
        [.createTemp, .copyDf, .countTemp, .countMatch, .insertMerge, .dropTemp, .commit]⟩

/-- The non-key cells of a row, in column order. -/
def nonPkCells (cols pks : List String) (r : Row V) : List (Option V) :=
  ((cols.zip r).filter (fun p => !(decide (p.1 ∈ pks)))).map Prod.snd

lemma countP_or_disjoint (l : List α) (p q : α → Bool)
    (h : ∀ a ∈ l, ¬(p a = true ∧ q a = true)) :
    l.countP (fun a => p a || q a) = l.countP p + l.countP q := by
  induction l with
  | nil => simp
  | cons a l ih =>
    have hh := h a (List.mem_cons_self a l)
    rw [List.countP_cons, List.countP_cons, List.countP_cons,
      ih (fun b hb => h b (List.mem_cons_of_mem a hb))]
    by_cases hp : p a = true <;> by_cases hq : q a = true
    · exact absurd ⟨hp, hq⟩ hh
    · simp [hp, hq]; omega
    · simp [hp, hq]; omega
    · simp [hp, hq]

/-- When the target's keys are pairwise distinct (the primary-key constraint),
the pair count of the `COUNT(*) ... JOIN` equals the number of staged rows
whose key already exists in the target. -/
lemma joinPairCount_eq (cols pks : List String) (target staged : List (Row V))
    (hTU : (target.map (rowKey cols pks)).Nodup) :
    joinPairCount cols pks target staged
      = (staged.filter (fun s =>
          target.any (fun t => decide (rowKey cols pks t = rowKey cols pks s)))).length := by
  induction target with
  | nil => simp [joinPairCount]
  | cons t ts ih =>
    rw [List.map_cons, List.nodup_cons] at hTU
    have hstep : joinPairCount cols pks (t :: ts) staged
        = (staged.filter (fun s => decide (rowKey cols pks t = rowKey cols pks s))).length
          + joinPairCount cols pks ts staged := by
      simp [joinPairCount, List.flatMap_cons]
    rw [hstep, ih hTU.2, ← List.countP_eq_length_filter, ← List.countP_eq_length_filter,
      ← List.countP_eq_length_filter]
    have hdisj : ∀ s ∈ staged,
        ¬((decide (rowKey cols pks t = rowKey cols pks s) = true) ∧
          (ts.any (fun u => decide (rowKey cols pks u = rowKey cols pks s)) = true)) := by
      rintro s _ ⟨h1, h2⟩
      rcases List.any_eq_true.mp h2 with ⟨u, hu, hus⟩
      apply hTU.1
      rw [List.mem_map]
      refine ⟨u, hu, ?_⟩
      simp only [decide_eq_true_eq] at h1 hus
      rw [hus, ← h1]
    have hcong : staged.countP (fun s =>
          (t :: ts).any (fun u => decide (rowKey cols pks u = rowKey cols pks s)))
        = staged.countP (fun s => decide (rowKey cols pks t = rowKey cols pks s)
            || ts.any (fun u => decide (rowKey cols pks u = rowKey cols pks s))) := by
      apply List.countP_congr
      intro s _
      simp [List.any_cons]
    rw [hcong, countP_or_disjoint staged _ _ hdisj]

/-- Cell access into the overwritten row: key columns read the target's cell,
non-key columns the staged one; anything out of range is `none`. -/
lemma overwriteNonPk_getElem? (cols pks : List String) (t s : Row V) (i : Nat) :
    (overwriteNonPk cols pks t s)[i]?
      = (cols[i]?).bind (fun c => (t[i]?).bind (fun a => (s[i]?).map
          (fun b => if c ∈ pks then a else b))) := by
  induction cols generalizing t s i with
  | nil => simp [overwriteNonPk]
  | cons c cs ih =>
    cases t with
    | nil => simp [overwriteNonPk]
    | cons a t' =>
      cases s with
      | nil =>
        cases i <;> simp [overwriteNonPk]
      | cons b s' =>
        cases i with
        | zero => simp [overwriteNonPk]
        | succ j =>
          have := ih t' s' j
          simpa [overwriteNonPk] using this

/-- Overwriting non-key cells does not change the primary-key tuple. -/
lemma rowKey_overwriteNonPk (cols pks : List String) (t s : Row V)
    (ht : t.length = cols.length) (hs : s.length = cols.length) :
    rowKey cols pks (overwriteNonPk cols pks t s) = rowKey cols pks t := by
  unfold rowKey
  apply List.map_congr_left
  intro pk hpk
  rw [overwriteNonPk_getElem?]
  by_cases hmem : pk ∈ cols
  · have hlt : cols.indexOf pk < cols.length := List.indexOf_lt_length.mpr hmem
    have hcol : cols[cols.indexOf pk]? = some pk := by
      rw [List.getElem?_eq_getElem hlt]
      exact congrArg some (List.getElem_indexOf hlt)
    have hlt2 : cols.indexOf pk < t.length := by omega
    have hlt3 : cols.indexOf pk < s.length := by omega
    have ha : t[cols.indexOf pk]? = some (t.get ⟨cols.indexOf pk, hlt2⟩) := by
      rw [List.getElem?_eq_getElem hlt2, List.get_eq_getElem]
    have hb : s[cols.indexOf pk]? = some (s.get ⟨cols.indexOf pk, hlt3⟩) := by
      rw [List.getElem?_eq_getElem hlt3, List.get_eq_getElem]
    rw [hcol, ha, hb]
    simp [hpk]
  · have hidx : cols.indexOf pk = cols.length := List.indexOf_eq_length.mpr hmem
    have h1 : cols[cols.indexOf pk]? = none := by
      rw [hidx]
      exact List.getElem?_eq_none (Nat.le_refl _)
    have h2 : t[cols.indexOf pk]? = none := by
      rw [hidx]
      exact List.getElem?_eq_none (by omega)
    rw [h1, h2]
    simp

/-- Overwriting takes the staged row's values on every non-key column. -/
lemma nonPkCells_overwriteNonPk (cols pks : List String) (t s : Row V)
    (ht : t.length = cols.length) (hs : s.length = cols.length) :
    nonPkCells cols pks (overwriteNonPk cols pks t s) = nonPkCells cols pks s := by
  induction cols generalizing t s with
  | nil =>
    have : s = [] := List.length_eq_zero.mp hs
    simp [nonPkCells, overwriteNonPk, this]
  | cons c cs ih =>
    cases t with
    | nil => simp at ht
    | cons a t' =>
      cases s with
      | nil => simp at hs
      | cons b s' =>
        simp only [List.length_cons] at ht hs
        have ht' : t'.length = cs.length := by omega
        have hs' : s'.length = cs.length := by omega
        have hstep : overwriteNonPk (c :: cs) pks (a :: t') (b :: s')
            = (if c ∈ pks then a else b) :: overwriteNonPk cs pks t' s' := by
          simp [overwriteNonPk]
        have hih := ih t' s' ht' hs'
        by_cases hc : c ∈ pks <;> simpa [nonPkCells, hstep, hc] using hih

/-- C2: with no statement failures, `upsert_data_to_db` reports
`inserted = staged − matched` and `updated = matched`, where `matched` counts
the staged rows whose primary-key tuple already exists in the target before
the merge, and after the merge every row whose key equals a staged row's key
carries that staged row's non-key values.  Key uniqueness on both sides
reflects the primary-key constraint on the target and on the
`LIKE ... INCLUDING ALL` staging table; the length hypotheses say rows are
well-formed for the column list. -/
theorem upsert_counts_and_overwrite
    (cols pks : List String) (target rows : List (Row V)) (F : DBStep → Bool)
    (hrows : rows ≠ []) (hpks : pks ≠ []) (hF : ∀ s, F s = false)
    (hTU : (target.map (rowKey cols pks)).Nodup)
    (hSU : (rows.map (rowKey cols pks)).Nodup)
    (hTlen : ∀ r ∈ target, r.length = cols.length)
    (hSlen : ∀ r ∈ rows, r.length = cols.length) :
    (upsert_data_to_db cols pks target (some rows) F).exit
      = UpsertExit.ok
          ((rows.length : Int) - ((rows.filter (fun s => target.any
              (fun t => decide (rowKey cols pks t = rowKey cols pks s)))).length : Int))
          ((rows.filter (fun s => target.any
              (fun t => decide (rowKey cols pks t = rowKey cols pks s)))).length : Int)
    ∧ ∀ r ∈ (upsert_data_to_db cols pks target (some rows) F).target,
        ∀ s ∈ rows, rowKey cols pks s = rowKey cols pks r →
          nonPkCells cols pks r = nonPkCells cols pks s := by
  have hrowsE : rows.isEmpty = false := by simpa [List.isEmpty_iff] using hrows
  have hpksE : pks.isEmpty = false := by simpa [List.isEmpty_iff] using hpks
  have hout : upsert_data_to_db cols pks target (some rows) F
      = ⟨.ok ((rows.length : Int) - (joinPairCount cols pks target rows : Int))
            ((joinPairCount cols pks target rows : Int)),
         mergeUpsert cols pks target rows, false,
         [.createTemp, .copyDf, .countTemp, .countMatch, .insertMerge, .dropTemp, .commit]⟩ := by
    simp [upsert_data_to_db, hrowsE, hpksE, hF]
  constructor
  · rw [hout, joinPairCount_eq cols pks target rows hTU]
  · rw [hout]
    intro r hr s hs hkey
    simp only [mergeUpsert, List.mem_append] at hr
    rcases hr with hr | hr
    · rcases List.mem_map.mp hr with ⟨t, ht, hrt⟩
      cases hfind : rows.find? (fun u => decide (rowKey cols pks t = rowKey cols pks u)) with
      | none =>
        rw [hfind] at hrt
        simp only [] at hrt
        have hnone := List.find?_eq_none.mp hfind s hs
        rw [← hrt] at hkey
        exact absurd (by simpa using hkey.symm) hnone
      | some s0 =>
        rw [hfind] at hrt
        simp only [] at hrt
        have hs0mem : s0 ∈ rows := List.mem_of_find?_eq_some hfind
        have hkey_ts0 : rowKey cols pks t = rowKey cols pks s0 := by
          simpa using List.find?_some hfind
        have hrk : rowKey cols pks r = rowKey cols pks t := by
          rw [← hrt]
          exact rowKey_overwriteNonPk cols pks t s0 (hTlen t ht) (hSlen s0 hs0mem)
        have hss0 : s = s0 :=
          List.inj_on_of_nodup_map hSU hs hs0mem (by rw [hkey, hrk, hkey_ts0])
        rw [← hrt, nonPkCells_overwriteNonPk cols pks t s0 (hTlen t ht) (hSlen s0 hs0mem), hss0]
    · have hrmem : r ∈ rows := List.mem_of_mem_filter hr
      have hsr : s = r := List.inj_on_of_nodup_map hSU hs hrmem hkey
      rw [hsr]

/-- C2 witness: staging three rows of which exactly one key pre-exists in the
target with a different value yields `inserted = 2`, `updated = 1`, and the
pre-existing row's non-key column takes the staged value. -/
theorem upsert_counts_and_overwrite_witness :
    (upsert_data_to_db (V := Nat) ["k", "v"] ["k"] [[some 10, some 0]]
        (some [[some 10, some 99], [some 20, some 1], [some 30, some 2]])
        (fun _ => false)).exit = UpsertExit.ok 2 1
    ∧ (upsert_data_to_db (V := Nat) ["k", "v"] ["k"] [[some 10, some 0]]
        (some [[some 10, some 99], [some 20, some 1], [some 30, some 2]])
        (fun _ => false)).target
      = [[some 10, some 99], [some 20, some 1], [some 30, some 2]] :=
  ⟨((upsert_counts_and_overwrite (V := Nat) ["k", "v"] ["k"] [[some 10, some 0]]
      [[some 10, some 99], [some 20, some 1], [some 30, some 2]] (fun _ => false)
      (by decide) (by decide) (fun _ => rfl) (by decide) (by decide)
      (by decide) (by decide)).1).trans (by decide),
   by decide⟩

/-- C3 counterexample: when the merge statement fails, `upsert_data_to_db`
exits with the propagated error while the per-call staging table is still
allocated in the session — the claimed guaranteed release on all exit paths
does not hold (the drop is only executed on the success path). -/
theorem upsert_staging_not_released_on_failure :
    (upsert_data_to_db (V := Nat) ["k", "v"] ["k"] []
        (some [[some 1, some 2]]) (fun s => decide (s = DBStep.insertMerge))).exit
      = UpsertExit.dbError DBStep.insertMerge
    ∧ (upsert_data_to_db (V := Nat) ["k", "v"] ["k"] []
        (some [[some 1, some 2]]) (fun s => decide (s = DBStep.insertMerge))).tempLive
      = true := by
  decide

/-- C3 amended: the staging table is released on the successful path; a failed
call leaves the committed target unchanged because the transaction is never
committed (there is no explicit rollback); on a failure the staging table
remains allocated in the session exactly when the failure strikes after the
staging table was created and before the transaction ends. -/
theorem upsert_failure_semantics (cols pks : List String) (target : List (Row V))
    (df : Option (List (Row V))) (F : DBStep → Bool) :
    ((∀ s, F s = false) → (upsert_data_to_db cols pks target df F).tempLive = false) ∧
    (∀ s, (upsert_data_to_db cols pks target df F).exit = UpsertExit.dbError s →
      (upsert_data_to_db cols pks target df F).target = target) ∧
    ((upsert_data_to_db cols pks target df F).exit = UpsertExit.valueError →
      (upsert_data_to_db cols pks target df F).target = target) ∧
    (∀ s, (upsert_data_to_db cols pks target df F).exit = UpsertExit.dbError s →
      ((upsert_data_to_db cols pks target df F).tempLive = true ↔
        s ∈ [DBStep.copyDf, DBStep.countTemp, DBStep.countMatch,
             DBStep.insertMerge, DBStep.dropTemp])) := by
  cases df with
  | none => simp [upsert_data_to_db]
  | some rows =>
    by_cases h1 : rows.isEmpty
    · simp [upsert_data_to_db, h1]
    · by_cases h2 : pks.isEmpty
      · simp [upsert_data_to_db, h1, h2]
      · by_cases h3 : F DBStep.createTemp
        · refine ⟨fun hall => ?_, ?_, ?_, ?_⟩ <;>
            simp_all [upsert_data_to_db, h1, h2, h3]
        · by_cases h4 : F DBStep.copyDf
          · refine ⟨fun hall => ?_, ?_, ?_, ?_⟩ <;>
              simp_all [upsert_data_to_db, h1, h2, h3, h4]
          · by_cases h5 : F DBStep.countTemp
            · refine ⟨fun hall => ?_, ?_, ?_, ?_⟩ <;>
                simp_all [upsert_data_to_db, h1, h2, h3, h4, h5]
            · by_cases h6 : F DBStep.countMatch
              · refine ⟨fun hall => ?_, ?_, ?_, ?_⟩ <;>
                  simp_all [upsert_data_to_db, h1, h2, h3, h4, h5, h6]
              · by_cases h7 : F DBStep.insertMerge
                · refine ⟨fun hall => ?_, ?_, ?_, ?_⟩ <;>
                    simp_all [upsert_data_to_db, h1, h2, h3, h4, h5, h6, h7]
                · by_cases h8 : F DBStep.dropTemp
                  · refine ⟨fun hall => ?_, ?_, ?_, ?_⟩ <;>
                      simp_all [upsert_data_to_db, h1, h2, h3, h4, h5, h6, h7, h8]
                  · by_cases h9 : F DBStep.commit
                    · refine ⟨fun hall => ?_, ?_, ?_, ?_⟩ <;>
                        simp_all [upsert_data_to_db, h1, h2, h3, h4, h5, h6, h7, h8, h9]
                    · refine ⟨fun hall => ?_, ?_, ?_, ?_⟩ <;>
                        simp_all [upsert_data_to_db, h1, h2, h3, h4, h5, h6, h7, h8, h9]

/-- C3 amended witness: a concrete successful call releases the staging table,
and a concrete call failing at the merge leaves the target unchanged. -/
theorem upsert_failure_semantics_witness :
    (upsert_data_to_db (V := Nat) ["k", "v"] ["k"] [[some 7, some 8]]
        (some [[some 1, some 2]]) (fun _ => false)).tempLive = false
    ∧ (upsert_data_to_db (V := Nat) ["k", "v"] ["k"] [[some 7, some 8]]
        (some [[some 1, some 2]]) (fun s => decide (s = DBStep.insertMerge))).target
      = [[some 7, some 8]] :=
  ⟨(upsert_failure_semantics (V := Nat) ["k", "v"] ["k"] [[some 7, some 8]]
      (some [[some 1, some 2]]) (fun _ => false)).1 (fun _ => rfl),
   (upsert_failure_semantics (V := Nat) ["k", "v"] ["k"] [[some 7, some 8]]
      (some [[some 1, some 2]]) (fun s => decide (s = DBStep.insertMerge))).2.1
     DBStep.insertMerge (by decide)⟩

/-- C10: passing `None` or an empty row set returns `inserted = 0, updated = 0`
without issuing any database statement and leaves the target unchanged, while
a non-empty row set with an empty primary-key list raises `ValueError` before
any database statement. -/
theorem upsert_none_empty_and_missing_pks (cols pks : List String)
    (target : List (Row V)) (F : DBStep → Bool) :
    upsert_data_to_db cols pks target none F
      = ⟨UpsertExit.ok 0 0, target, false, []⟩
    ∧ upsert_data_to_db cols pks target (some []) F
      = ⟨UpsertExit.ok 0 0, target, false, []⟩
    ∧ (∀ rows : List (Row V), rows ≠ [] →
        upsert_data_to_db cols [] target (some rows) F
          = ⟨UpsertExit.valueError, target, false, []⟩) := by
  refine ⟨rfl, by simp [upsert_data_to_db], fun rows hne => ?_⟩
  have hne' : rows.isEmpty = false := by simpa [List.isEmpty_iff] using hne
  simp [upsert_data_to_db, hne']

/-- C10 witness: concrete `None`, empty and missing-primary-keys calls. -/
theorem upsert_none_empty_and_missing_pks_witness :
    upsert_data_to_db (V := Nat) ["k"] ["k"] [[some 3]] none (fun _ => false)
      = ⟨UpsertExit.ok 0 0, [[some 3]], false, []⟩
    ∧ upsert_data_to_db (V := Nat) ["k"] [] [[some 3]] (some [[some 1]]) (fun _ => false)
      = ⟨UpsertExit.valueError, [[some 3]], false, []⟩ :=
  ⟨(upsert_none_empty_and_missing_pks (V := Nat) ["k"] ["k"] [[some 3]] (fun _ => false)).1,
   (upsert_none_empty_and_missing_pks (V := Nat) ["k"] ["k"] [[some 3]]
      (fun _ => false)).2.2 [[some 1]] (by decide)⟩

/-! ## util.clean_dataframe (src/util/utility.py, lines 113-146)

Column conformance: every schema column missing from the frame is appended
with NULL values, then the frame is projected and reordered to exactly the
schema's column list.  Duplicate elimination runs whenever every primary-key
column is contained in the (post-conformance) column list — note that this
test is vacuously true for an empty primary-key list, in which case
`drop_duplicates(subset=[])` is reached; on a non-empty frame pandas
`DataFrame.duplicated` then fails (`ValueError: not enough values to unpack`
while unpacking zero factorised key columns), which the error result models.
Only when some primary-key column is absent is the elimination skipped with a
warning. -/

/-- Missing schema columns are appended with NULL values
(`df[col] = None`, in schema file order). -/
def addMissingColumns (cols schemaCols : List String) (rows : List (Row V)) :
    List String × List (Row V) :=
  let missing := schemaCols.filter (fun c => !(cols.contains c))
  (cols ++ missing, rows.map (fun r => r ++ missing.map (fun _ => (none : Option V))))

/-- Projection `df = df[table_schema]`: select and reorder the columns to the
schema's list (schema columns are all present after `addMissingColumns`). -/
def projectColumns (cols schemaCols : List String) (rows : List (Row V)) : List (Row V) :=
  rows.map (fun r => schemaCols.map (fun c => (r[cols.indexOf c]?).join))

/-- The conformed row set: missing columns added, then projected to the
schema's column list. -/
def conformedRows (cols schemaCols : List String) (rows : List (Row V)) : List (Row V) :=
  projectColumns (addMissingColumns cols schemaCols rows).1 schemaCols
    (addMissingColumns cols schemaCols rows).2

/-- Keep the first row for each key tuple, in original order (pandas
`drop_duplicates(subset, keep="first")` on a non-empty key list). -/
def dropDuplicatesFirst (key : Row V → List (Option (Option V)))
    (seen : List (List (Option (Option V)))) : List (Row V) → List (Row V)
  | [] => []
  | r :: rs =>
    if key r ∈ seen then dropDuplicatesFirst key seen rs
    else r :: dropDuplicatesFirst key (key r :: seen) rs

/-- pandas `df.drop_duplicates(subset, keep="first")`.  An empty frame is
returned unchanged; a non-empty frame with an empty subset list makes
`DataFrame.duplicated` raise a `ValueError` (unpacking zero factorised
columns), modelled by the error result. -/
def drop_duplicates (cols subset : List String) (rows : List (Row V)) :
    Except Unit (List (Row V)) :=
  if rows.isEmpty then .ok rows
  else if subset.isEmpty then .error ()
  else .ok (dropDuplicatesFirst (rowKey cols subset) [] rows)

/-- Result of `clean_dataframe`: the frame plus whether the
skipped-duplicate-removal warning was logged. -/
structure CleanResult (V : Type) where
  cols : List String
  rows : List (Row V)
  warned : Bool
deriving DecidableEq

/-- Embedding of `util.clean_dataframe`. -/
def clean_dataframe (cols schemaCols pks : List String) (rows : List (Row V)) :
    Except Unit (CleanResult V) :=
  let conformed := conformedRows cols schemaCols rows
  if pks.all (fun c => schemaCols.contains c) then
    match drop_duplicates schemaCols pks conformed with
    | .ok r => .ok ⟨schemaCols, r, false⟩
    | .error e => .error e
  else .ok ⟨schemaCols, conformed, true⟩

lemma dropDuplicatesFirst_sublist (key : Row V → List (Option (Option V)))
    (seen : List (List (Option (Option V)))) (l : List (Row V)) :
    (dropDuplicatesFirst key seen l).Sublist l := by
  induction l generalizing seen with
  | nil => simp [dropDuplicatesFirst]
  | cons r rs ih =>
    unfold dropDuplicatesFirst
    by_cases h : key r ∈ seen
    · rw [if_pos h]
      exact (ih seen).cons r
    · rw [if_neg h]
      exact (ih (key r :: seen)).cons₂ r

lemma dropDuplicatesFirst_nodup (key : Row V → List (Option (Option V)))
    (seen : List (List (Option (Option V)))) (l : List (Row V)) :
    ((dropDuplicatesFirst key seen l).map key).Nodup
    ∧ ∀ r ∈ dropDuplicatesFirst key seen l, key r ∉ seen := by
  induction l generalizing seen with
  | nil => simp [dropDuplicatesFirst]
  | cons r rs ih =>
    unfold dropDuplicatesFirst
    by_cases h : key r ∈ seen
    · rw [if_pos h]
      exact ih seen
    · rw [if_neg h]
      have hrec := ih (key r :: seen)
      refine ⟨?_, ?_⟩
      · rw [List.map_cons, List.nodup_cons]
        refine ⟨?_, hrec.1⟩
        intro hmem
        rcases List.mem_map.mp hmem with ⟨r2, hr2, hkeq⟩
        exact hrec.2 r2 hr2 (hkeq ▸ List.mem_cons_self _ _)
      · intro r2 hr2
        rcases List.mem_cons.mp hr2 with hr2 | hr2
        · exact hr2 ▸ h
        · intro hmem
          exact hrec.2 r2 hr2 (List.mem_cons_of_mem _ hmem)

lemma dropDuplicatesFirst_complete (key : Row V → List (Option (Option V)))
    (seen : List (List (Option (Option V)))) (l : List (Row V)) :
    ∀ r ∈ l, key r ∉ seen →
      ∃ r2 ∈ dropDuplicatesFirst key seen l, key r2 = key r := by
  induction l generalizing seen with
  | nil => simp
  | cons a as ih =>
    intro r hr hseen
    unfold dropDuplicatesFirst
    by_cases h : key a ∈ seen
    · rw [if_pos h]
      rcases List.mem_cons.mp hr with hr | hr
      · exact absurd (hr ▸ hseen) (by simpa using h)
      · exact ih seen r hr hseen
    · rw [if_neg h]
      by_cases hk : key r = key a
      · exact ⟨a, List.mem_cons_self _ _, hk.symm⟩
      · rcases List.mem_cons.mp hr with hr | hr
        · exact absurd (congrArg key hr) hk
        · rcases ih (key a :: seen) r hr (by
            intro hmem
            rcases List.mem_cons.mp hmem with hmem | hmem
            · exact hk hmem
            · exact hseen hmem) with ⟨r2, hr2, hkeq⟩
          exact ⟨r2, List.mem_cons_of_mem _ hr2, hkeq⟩

lemma dropDuplicatesFirst_is_first (key : Row V → List (Option (Option V)))
    (seen : List (List (Option (Option V)))) (l : List (Row V)) :
    ∀ r ∈ dropDuplicatesFirst key seen l,
      key r ∉ seen ∧ l.find? (fun x => decide (key x = key r)) = some r := by
  induction l generalizing seen with
  | nil => simp [dropDuplicatesFirst]
  | cons a as ih =>
    intro r hr
    unfold dropDuplicatesFirst at hr
    by_cases h : key a ∈ seen
    · rw [if_pos h] at hr
      have hrec := ih seen r hr
      refine ⟨hrec.1, ?_⟩
      rw [List.find?_cons_of_neg, hrec.2]
      simp only [decide_eq_true_eq]
      intro heq
      exact hrec.1 (heq ▸ h)
    · rw [if_neg h] at hr
      rcases List.mem_cons.mp hr with hr | hr
      · subst hr
        exact ⟨h, by rw [List.find?_cons_of_pos]; simp⟩
      · have hrec := ih (key a :: seen) r hr
        have hka : key r ≠ key a := by
          intro heq
          exact hrec.1 (heq ▸ List.mem_cons_self _ _)
        refine ⟨fun hmem => hrec.1 (List.mem_cons_of_mem _ hmem), ?_⟩
        rw [List.find?_cons_of_neg, hrec.2]
        simp only [decide_eq_true_eq]
        exact fun heq => hka heq.symm

lemma conformedRows_length (cols schemaCols : List String) (rows : List (Row V)) :
    (conformedRows cols schemaCols rows).length = rows.length := by
  simp [conformedRows, projectColumns, addMissingColumns]

lemma drop_duplicates_ok (cols subset : List String) (rows : List (Row V))
    (h : subset ≠ []) :
    drop_duplicates cols subset rows
      = .ok (dropDuplicatesFirst (rowKey cols subset) [] rows) := by
  unfold drop_duplicates
  by_cases hr : rows.isEmpty
  · rw [if_pos hr]
    have hrows : rows = [] := List.isEmpty_iff.mp hr
    subst hrows
    simp [dropDuplicatesFirst]
  · rw [if_neg hr, if_neg (by simpa [List.isEmpty_iff] using h)]

/-- C6 amended: when the primary-key list is non-empty and all its columns
are present after conformance, `clean_dataframe` keeps, for each primary-key
tuple, exactly the first conformed row in original order (no warning), and
the result never has more rows than the input.  (With an empty primary-key
list the presence test is vacuously true and the dedup call fails on a
non-empty frame — see the counterexample.) -/
theorem clean_dataframe_keeps_first_per_key
    (cols schemaCols pks : List String) (rows : List (Row V))
    (hne : pks ≠ []) (hsub : ∀ p ∈ pks, p ∈ schemaCols) :
    clean_dataframe cols schemaCols pks rows
      = .ok ⟨schemaCols,
          dropDuplicatesFirst (rowKey schemaCols pks) [] (conformedRows cols schemaCols rows),
          false⟩
    ∧ (dropDuplicatesFirst (rowKey schemaCols pks) []
        (conformedRows cols schemaCols rows)).Sublist (conformedRows cols schemaCols rows)
    ∧ ((dropDuplicatesFirst (rowKey schemaCols pks) []
        (conformedRows cols schemaCols rows)).map (rowKey schemaCols pks)).Nodup
    ∧ (∀ r ∈ conformedRows cols schemaCols rows,
        ∃ r2 ∈ dropDuplicatesFirst (rowKey schemaCols pks) []
            (conformedRows cols schemaCols rows),
          rowKey schemaCols pks r2 = rowKey schemaCols pks r)
    ∧ (∀ r ∈ dropDuplicatesFirst (rowKey schemaCols pks) []
          (conformedRows cols schemaCols rows),
        (conformedRows cols schemaCols rows).find?
            (fun x => decide (rowKey schemaCols pks x = rowKey schemaCols pks r)) = some r)
    ∧ (dropDuplicatesFirst (rowKey schemaCols pks) []
        (conformedRows cols schemaCols rows)).length ≤ rows.length := by
  refine ⟨?_, dropDuplicatesFirst_sublist _ _ _,
    (dropDuplicatesFirst_nodup _ _ _).1,
    fun r hr => dropDuplicatesFirst_complete _ [] _ r hr (by simp),
    fun r hr => (dropDuplicatesFirst_is_first _ [] _ r hr).2, ?_⟩
  · unfold clean_dataframe
    rw [if_pos, drop_duplicates_ok _ _ _ hne]
    rw [List.all_eq_true]
    intro c hc
    simpa using hsub c hc
  · calc (dropDuplicatesFirst (rowKey schemaCols pks) []
            (conformedRows cols schemaCols rows)).length
        ≤ (conformedRows cols schemaCols rows).length :=
          (dropDuplicatesFirst_sublist _ _ _).length_le
      _ = rows.length := conformedRows_length cols schemaCols rows

/-- C6 counterexample: with an empty primary-key list (whose columns are
vacuously all present) and two distinct rows, `clean_dataframe` does not
return the table deduplicated by key tuple — the pandas dedup call on an
empty subset fails, so there is no result at all. -/
theorem clean_dataframe_empty_pks_counterexample :
    clean_dataframe (V := Nat) ["a"] ["a"] [] [[some 0], [some 1]] = .error () := by
  decide

/-- C6 witness: a table with a duplicate primary-key row appended keeps only
the first-occurring row for that key. -/
theorem clean_dataframe_keeps_first_per_key_witness :
    clean_dataframe (V := Nat) ["t", "y", "v"] ["t", "y", "v"] ["t", "y"]
        [[some 1, some 1, some 10], [some 1, some 2, some 20], [some 1, some 1, some 99]]
      = .ok ⟨["t", "y", "v"],
          [[some 1, some 1, some 10], [some 1, some 2, some 20]], false⟩ :=
  ((clean_dataframe_keeps_first_per_key ["t", "y", "v"] ["t", "y", "v"] ["t", "y"]
      [[some 1, some 1, some 10], [some 1, some 2, some 20], [some 1, some 1, some 99]]
      (by decide) (by decide)).1).trans (by decide)

/-- C7: the skip-with-warning path is taken only when some primary-key column
is absent after conformance (first conjunct: duplicate rows are then kept and
the warning is logged).  With an empty primary-key list the presence test
`all(col in df.columns for col in [])` is vacuously true, so the code does
not skip: it reaches `drop_duplicates(subset=[])`, which fails on a non-empty
frame instead of returning all rows with a warning (second conjunct). -/
theorem clean_dataframe_empty_pks_not_skipped :
    clean_dataframe (V := Nat) ["x"] ["x"] ["missing"] [[some 5], [some 5]]
      = .ok ⟨["x"], [[some 5], [some 5]], true⟩
    ∧ clean_dataframe (V := Nat) ["x"] ["x"] [] [[some 5], [some 6]] = .error () := by
  decide

/-! ## util.transform_df (src/util/utility.py, lines 75-111)

Period extraction: a row label is either `"<year>"` (annual) or
`"<year>-Q<n>"` (quarterly).  Any pre-existing `report_period`/`year`/
`quarter` columns are dropped first, then `year`/`quarter` columns computed
from the labels are attached (quarter `5` is the annual sentinel).  The
guard `if "year" in df.columns and "quarter" in df.columns: return df` in
the source is unreachable, because both columns were just dropped. -/

/-- Substring containment, Python's `sub in s` for non-empty `sub`. -/
def isPrefixChars : List Char → List Char → Bool
  | [], _ => true
  | _ :: _, [] => false
  | a :: as, b :: bs => a = b && isPrefixChars as bs

def containsChars (sub : List Char) : List Char → Bool
  | [] => sub.isEmpty
  | l@(_ :: rest) => isPrefixChars sub l || containsChars sub rest

def pyIn (sub s : String) : Bool := containsChars sub.data s.data

/-- Python `str.strip()`: drop leading and trailing whitespace. -/
def pyStripChars (l : List Char) : List Char :=
  ((l.dropWhile Char.isWhitespace).reverse.dropWhile Char.isWhitespace).reverse

def digitVal (c : Char) : Option Nat :=
  if c.isDigit then some (c.toNat - '0'.toNat) else none

def digitsToNatAux : List Char → Nat → Option Nat
  | [], acc => some acc
  | c :: cs, acc =>
    match digitVal c with
    | some d => digitsToNatAux cs (acc * 10 + d)
    | none => none

def digitsToNat : List Char → Option Nat
  | [] => none
  | l => digitsToNatAux l 0

/-- Python `int(str)`: optional surrounding whitespace, an optional sign and
decimal digits; anything else raises `ValueError` (`none`). -/
def pyIntChars (l : List Char) : Option Int :=
  match pyStripChars l with
  | '+' :: rest => (digitsToNat rest).map Int.ofNat
  | '-' :: rest => (digitsToNat rest).map (fun n => -(n : Int))
  | rest => (digitsToNat rest).map Int.ofNat

/-- Python `str.split(sep)` for a one-character separator. -/
def splitOnChar (sep : Char) : List Char → List (List Char)
  | [] => [[]]
  | c :: cs =>
    let r := splitOnChar sep cs
    if c = sep then [] :: r
    else
      match r with
      | [] => [[c]]
      | h :: t => (c :: h) :: t

/-- Embedding of the row handler `extract_year_quarter` inside
`transform_df`: a label containing `-` is split into exactly two parts,
year and quarter (all `Q` characters removed); otherwise the whole label is
the year and the quarter is the annual sentinel `5`.  `none` models the
`ValueError` raised on malformed labels (bad integers, or a split into a
number of parts other than two). -/
def extract_year_quarter (label : String) : Option (Int × Int) :=
  if pyIn "-" label then
    match splitOnChar '-' label.data with
    | [y, q] =>
      (pyIntChars y).bind (fun yi =>
        (pyIntChars (q.filter (fun c => c ≠ 'Q'))).map (fun qi => (yi, qi)))
    | _ => none
  else
    (pyIntChars label.data).map (fun yi => (yi, 5))

/-- Drop the cells of the `report_period`/`year`/`quarter` columns of a row
(`df.drop(col, axis=1)` applied to each name that is present). -/
def dropPeriodCols (cols : List String) (r : Row V) : Row V :=
  ((cols.zip r).filter
    (fun p => !(["report_period", "year", "quarter"].contains p.1))).map Prod.snd

/-- Attach the extracted year/quarter to each (label, row) pair; the first
malformed label aborts the whole transformation, as the pandas `apply` does. -/
def attachYearQuarter (cols : List String) :
    List (String × Row V) → Option (List (Row V × Int × Int))
  | [] => some []
  | (lab, r) :: rest =>
    (extract_year_quarter lab).bind (fun yq =>
      (attachYearQuarter cols rest).map (fun rs => (dropPeriodCols cols r, yq) :: rs))

/-- Embedding of `util.transform_df` over a frame with row labels: result
columns are the kept columns followed by the new `year` and `quarter`
columns, and each row carries its label's extracted period. -/
def transform_df (cols : List String) (rows : List (String × Row V)) :
    Option (List String × List (Row V × Int × Int)) :=
  (attachYearQuarter cols rows).map (fun rs =>
    ((cols.filter (fun c => !(["report_period", "year", "quarter"].contains c)))
        ++ ["year", "quarter"], rs))

/-- C9: a plain-year label maps to `(year, 5)` and a `"<year>-Q<n>"` label to
`(year, n)`; the pre-existing `report_period`/`year`/`quarter` columns are
dropped before the new `year`/`quarter` fields are attached, and each result
row carries the extraction of its own label. -/
theorem transform_df_period_extraction :
    extract_year_quarter "2022" = some (2022, 5)
    ∧ extract_year_quarter "2022-Q3" = some (2022, 3)
    ∧ (∀ (V : Type) (cols : List String) (rows : List (String × Row V)) res,
        transform_df cols rows = some res →
          res.1 = (cols.filter
              (fun c => !(["report_period", "year", "quarter"].contains c)))
            ++ ["year", "quarter"]
          ∧ "report_period" ∉ res.1.dropLast.dropLast
          ∧ res.2.length = rows.length
          ∧ ∀ i (hi : i < rows.length),
              ∃ yq, extract_year_quarter (rows.get ⟨i, hi⟩).1 = some yq
                ∧ res.2[i]? = some (dropPeriodCols cols (rows.get ⟨i, hi⟩).2, yq)) := by
  refine ⟨by decide, by decide, ?_⟩
  intro W cols rows res hres
  have hmain : ∀ (rows : List (String × Row W)) rs,
      attachYearQuarter cols rows = some rs →
        rs.length = rows.length
        ∧ ∀ i (hi : i < rows.length),
            ∃ yq, extract_year_quarter (rows.get ⟨i, hi⟩).1 = some yq
              ∧ rs[i]? = some (dropPeriodCols cols (rows.get ⟨i, hi⟩).2, yq) := by
    intro rows
    induction rows with
    | nil =>
      intro rs hrs
      simp only [attachYearQuarter, Option.some.injEq] at hrs
      subst hrs
      exact ⟨rfl, fun i hi => absurd hi (by simp)⟩
    | cons p rest ih =>
      intro rs hrs
      rcases p with ⟨lab, r⟩
      simp only [attachYearQuarter, Option.bind_eq_some, Option.map_eq_some'] at hrs
      rcases hrs with ⟨yq, hyq, rs', hrs', hcons⟩
      subst hcons
      rcases ih rs' hrs' with ⟨hlen, hidx⟩
      refine ⟨by simp [hlen], fun i hi => ?_⟩
      cases i with
      | zero => exact ⟨yq, hyq, by simp⟩
      | succ j =>
        have hj : j < rest.length := by simpa using hi
        rcases hidx j hj with ⟨yq2, hyq2, hrs2⟩
        exact ⟨yq2, hyq2, by simpa using hrs2⟩
  simp only [transform_df, Option.map_eq_some'] at hres
  rcases hres with ⟨rs, hrs, hres⟩
  subst hres
  rcases hmain rows rs hrs with ⟨hlen, hidx⟩
  refine ⟨rfl, ?_, hlen, hidx⟩
  intro hmem
  have := List.dropLast_sublist (l := (cols.filter
      (fun c => !(["report_period", "year", "quarter"].contains c))) ++ ["year", "quarter"])
  have hmem2 : "report_period" ∈ (cols.filter
      (fun c => !(["report_period", "year", "quarter"].contains c))) ++ ["year", "quarter"] :=
    (List.dropLast_sublist _).subset ((List.dropLast_sublist _).subset hmem)
  rcases List.mem_append.mp hmem2 with h | h
  · have := List.of_mem_filter h
    simp at this
  · simp at h

/-- C9 witness: a concrete frame with one annual and one quarterly label and a
stale `quarter` column, which is dropped and replaced by the extracted
fields. -/
theorem transform_df_period_extraction_witness :
    transform_df (V := Nat) ["quarter", "amount"]
        [("2022", [some 9, some 100]), ("2022-Q3", [some 9, some 30])]
      = some (["amount", "year", "quarter"],
          [([some 100], 2022, 5), ([some 30], 2022, 3)])
    ∧ "report_period" ∉ (["amount", "year", "quarter"] : List String).dropLast.dropLast :=
  ⟨by decide,
   ((transform_df_period_extraction).2.2 Nat ["quarter", "amount"]
      [("2022", [some 9, some 100]), ("2022-Q3", [some 9, some 30])]
      (["amount", "year", "quarter"],
        [([some 100], 2022, 5), ([some 30], 2022, 3)]) (by decide)).2.1⟩

/-! ## Load ordering in DataOrchestrator.run
(src/DataOrchestrator/DataOrchestrator.py, lines 220-228)

`sorted(tables_to_dump.items(), key=lambda x: "company" in x[0], reverse=True)`
is a stable sort by a Boolean key in descending order: items whose table name
contains `"company"` come first, and items with equal keys keep their original
relative order.  Any stable sorting algorithm yields the same list; the model
uses a stable descending insertion sort. -/

/-- Insert `a` before the first element whose key is not greater than `a`'s
(descending order, original order kept among equal keys). -/
def insertByKeyDesc (key : α → Bool) (a : α) : List α → List α
  | [] => [a]
  | b :: bs => if key b && !key a then b :: insertByKeyDesc key a bs else a :: b :: bs

/-- Python `sorted(l, key=key, reverse=True)` for a Boolean-valued key. -/
def pySortedDescBy (key : α → Bool) (l : List α) : List α :=
  l.foldr (insertByKeyDesc key) []

lemma insertByKeyDesc_partitioned (key : α → Bool) (a : α) (A B : List α)
    (hA : ∀ b ∈ A, key b = true) (hB : ∀ b ∈ B, key b = false) :
    insertByKeyDesc key a (A ++ B)
      = if key a then a :: (A ++ B) else A ++ a :: B := by
  induction A with
  | nil =>
    cases B with
    | nil => simp [insertByKeyDesc]
    | cons b bs =>
      have hb := hB b (List.mem_cons_self b bs)
      simp [insertByKeyDesc, hb]
  | cons c A' ih =>
    have hc := hA c (List.mem_cons_self c A')
    have ih' := ih (fun b hb => hA b (List.mem_cons_of_mem c hb))
    by_cases ha : key a
    · simp [insertByKeyDesc, hc, ha]
    · simp only [Bool.not_eq_true] at ha
      simp [insertByKeyDesc, hc, ha, ih']

/-- A stable descending sort on a Boolean key is exactly the partition: the
key-true items in original order, then the key-false items in original
order. -/
lemma pySortedDescBy_partition (key : α → Bool) (l : List α) :
    pySortedDescBy key l = l.filter key ++ l.filter (fun a => !key a) := by
  induction l with
  | nil => rfl
  | cons a l ih =>
    show insertByKeyDesc key a (pySortedDescBy key l) = _
    rw [ih, insertByKeyDesc_partitioned key a _ _
      (fun b hb => (List.mem_filter.mp hb).2)
      (fun b hb => by simpa using (List.mem_filter.mp hb).2)]
    by_cases ha : key a
    · simp [List.filter_cons, ha]
    · simp only [Bool.not_eq_true] at ha
      simp [List.filter_cons, ha]

lemma partitioned_order (key : α → Bool) (s A B : List α) (hs : s = A ++ B)
    (hA : ∀ b ∈ A, key b = true) (hB : ∀ b ∈ B, key b = false)
    (i j : Nat) (hi : i < s.length) (hj : j < s.length)
    (hif : key (s.get ⟨i, hi⟩) = false)
    (hjt : key (s.get ⟨j, hj⟩) = true) :
    j < i := by
  subst hs
  have hjA : j < A.length := by
    by_contra h
    push_neg at h
    have hmem : (A ++ B).get ⟨j, hj⟩ ∈ B := by
      rw [List.get_eq_getElem, List.getElem_append_right h]
      exact List.getElem_mem _
    rw [hB _ hmem] at hjt
    exact Bool.false_ne_true hjt
  have hiA : ¬ i < A.length := by
    intro h
    have hmem : (A ++ B).get ⟨i, hi⟩ ∈ A := by
      rw [List.get_eq_getElem, List.getElem_append_left h]
      exact List.getElem_mem _
    rw [hA _ hmem] at hif
    simp at hif
  omega

/-- C8: the orchestrator's load loop sorts the `(table_name, rows)` pairs so
that every table whose name contains `"company"` is loaded before every table
whose name does not (the sort is the stable partition), hence in the concrete
table set the `company` table sorts first and `company` precedes `cash_flow`. -/
theorem load_order_company_first :
    (∀ (T : Type) (tables : List (String × T)),
      pySortedDescBy (fun p => pyIn "company" p.1) tables
        = tables.filter (fun p => pyIn "company" p.1)
          ++ tables.filter (fun p => !(pyIn "company" p.1)))
    ∧ (∀ (T : Type) (tables : List (String × T)) i j
        (hi : i < (pySortedDescBy (fun p => pyIn "company" p.1) tables).length)
        (hj : j < (pySortedDescBy (fun p => pyIn "company" p.1) tables).length),
        pyIn "company" ((pySortedDescBy (fun p => pyIn "company" p.1) tables).get ⟨i, hi⟩).1
            = false →
        pyIn "company" ((pySortedDescBy (fun p => pyIn "company" p.1) tables).get ⟨j, hj⟩).1
            = true →
        j < i)
    ∧ (pySortedDescBy (fun p : String × Unit => pyIn "company" p.1)
        [("company", ()), ("cash_flow", ()), ("balance_sheet", ()),
         ("income_statement", ()), ("ratio", ()), ("daily_price", ())]).map Prod.fst
      = ["company", "cash_flow", "balance_sheet", "income_statement",
         "ratio", "daily_price"] := by
  refine ⟨fun T tables => pySortedDescBy_partition _ tables, ?_, by decide⟩
  intro T tables i j hi hj hif hjt
  have hpart := pySortedDescBy_partition (fun p : String × T => pyIn "company" p.1) tables
  have hA : ∀ b ∈ tables.filter (fun p : String × T => pyIn "company" p.1),
      pyIn "company" b.1 = true := fun b hb => (List.mem_filter.mp hb).2
  have hB : ∀ b ∈ tables.filter (fun p : String × T => !(pyIn "company" p.1)),
      pyIn "company" b.1 = false := fun b hb => by simpa using (List.mem_filter.mp hb).2
  exact partitioned_order (fun p : String × T => pyIn "company" p.1) _ _ _ hpart hA hB
    i j hi hj hif hjt

/-- C8 witness: in a concrete list where a dependent table initially precedes
the company table, the sort moves the company table first, and the
order-inversion clause instantiates to `0 < 1`. -/
theorem load_order_company_first_witness :
    (pySortedDescBy (fun p : String × Unit => pyIn "company" p.1)
        [("a", ()), ("company", ())]).map Prod.fst = ["company", "a"]
    ∧ (0 : Nat) < 1 :=
  ⟨by decide,
   (load_order_company_first).2.1 Unit [("a", ()), ("company", ())] 1 0
     (by decide) (by decide) (by decide) (by decide)⟩

/-! ## util.get_table_schemas_from_sql (src/util/utility.py, lines 169-250)

Line-oriented DDL scanner.  Each line is stripped; blank lines and `--`
comments are skipped; a line whose upper-case form starts with
`CREATE TABLE` opens a table block (name captured by the regex
`CREATE TABLE(?:\s+IF NOT EXISTS)?\s+`?(\w+)`?` with `re.search` semantics);
inside a block a `);` line closes it, a line containing `PRIMARY KEY`
(`FOREIGN KEY`) contributes the identifiers of its parenthesised group to the
primary (foreign) keys, and any other line contributes its leading word as a
column unless it is a reserved word.  Nothing checks key names against the
column list.  Python's regexes are ASCII here, so `\w` is a letter, digit or
underscore. -/

def backtickChar : Char := Char.ofNat 96

def wordChar (c : Char) : Bool := c.isAlphanum || c = '_'

def upperChars (l : List Char) : List Char := l.map Char.toUpper

/-- Match `pat` case-insensitively as a prefix, returning the rest. -/
def matchCI : List Char → List Char → Option (List Char)
  | [], rest => some rest
  | _ :: _, [] => none
  | p :: ps, c :: cs => if p.toUpper = c.toUpper then matchCI ps cs else none

/-- Regex `\s+`: at least one whitespace character, consumed greedily. -/
def skipWs1 : List Char → Option (List Char)
  | [] => none
  | c :: cs => if c.isWhitespace then some (cs.dropWhile Char.isWhitespace) else none

/-- Regex `` `?(\w+)`? `` at this position: an optional backtick, then the
captured non-empty run of word characters. -/
def matchName (l : List Char) : Option String :=
  let l2 := match l with
    | c :: rest => if c = backtickChar then rest else l
    | [] => []
  let w := l2.takeWhile wordChar
  if w.isEmpty then none else some (String.mk w)

/-- The part of the table-name regex after the literal `CREATE TABLE`:
`(?:\s+IF NOT EXISTS)?\s+`?(\w+)`?`, with the regex's backtracking (the
optional group is tried first; on any later failure the bare alternative is
taken). -/
def matchCreateTail (r1 : List Char) : Option String :=
  match (skipWs1 r1).bind (fun r2 => (matchCI "IF NOT EXISTS".data r2).bind
      (fun r3 => (skipWs1 r3).bind (fun r4 => matchName r4))) with
  | some n => some n
  | none => (skipWs1 r1).bind (fun r2 => matchName r2)

def matchCreateTableAt (l : List Char) : Option String :=
  (matchCI "CREATE TABLE".data l).bind matchCreateTail

/-- `re.search` for the table-name pattern: try every start position. -/
def searchCreateTable : List Char → Option String
  | [] => none
  | l@(_ :: rest) =>
    match matchCreateTableAt l with
    | some n => some n
    | none => searchCreateTable rest

/-- Regex `KEYWORD\s*\((.*?)\)` attempted at this position: the keyword
case-insensitively, optional whitespace, an opening parenthesis, then the
group captured lazily up to the first closing parenthesis (which must
exist). -/
def matchKeyParenAt (kw : List Char) (l : List Char) : Option (List Char) :=
  (matchCI kw l).bind (fun r1 =>
    match r1.dropWhile Char.isWhitespace with
    | '(' :: r3 =>
      if (r3.dropWhile (fun c => c ≠ ')')).isEmpty then none
      else some (r3.takeWhile (fun c => c ≠ ')'))
    | _ => none)

def searchKeyParen (kw : List Char) : List Char → Option (List Char)
  | [] => none
  | l@(_ :: rest) =>
    match matchKeyParenAt kw l with
    | some c => some c
    | none => searchKeyParen kw rest

/-- `[k.strip().replace(backtick, "") for k in group.split(",")]`. -/
def splitKeys (content : List Char) : List String :=
  (splitOnChar ',' content).map
    (fun k => String.mk ((pyStripChars k).filter (fun c => c ≠ backtickChar)))

/-- Per-table parse result: ordered column list, primary keys, foreign keys. -/
structure TableSchema where
  columns : List String
  primary_keys : List String
  foreign_keys : List String
deriving DecidableEq

/-- Scanner state: the schema dictionary (a Python `dict`, insertion-ordered),
the current table and whether the scan is inside a table block. -/
structure ParserState where
  schemas : List (String × TableSchema)
  current : Option String
  inDef : Bool
deriving DecidableEq

def emptySchema : TableSchema := ⟨[], [], []⟩

/-- Python `d[k] = v`: overwrite in place when the key exists, else append. -/
def dictInsert (d : List (String × TableSchema)) (k : String) (v : TableSchema) :
    List (String × TableSchema) :=
  if d.any (fun p => decide (p.1 = k)) then
    d.map (fun p => if p.1 = k then (k, v) else p)
  else d ++ [(k, v)]

/-- Python in-place mutation of `d[k]`'s fields. -/
def dictUpdate (d : List (String × TableSchema)) (k : String)
    (f : TableSchema → TableSchema) : List (String × TableSchema) :=
  d.map (fun p => if p.1 = k then (p.1, f p.2) else p)

def dictFind (d : List (String × TableSchema)) (k : String) : Option TableSchema :=
  (d.find? (fun p => decide (p.1 = k))).map Prod.snd

def reservedWords : List String := ["CONSTRAINT", "PRIMARY", "FOREIGN", "KEY"]

/-- Embedding of the per-line step of `get_table_schemas_from_sql`. -/
def processLine (st : ParserState) (rawLine : String) : ParserState :=
  let line : List Char := pyStripChars rawLine.data
  if line.isEmpty || isPrefixChars "--".data line then st
  else if isPrefixChars "CREATE TABLE".data (upperChars line) then
    match searchCreateTable line with
    | some name =>
      { schemas := dictInsert st.schemas name emptySchema
        current := some name
        inDef := true }
    | none => st
  else if st.inDef then
    if isPrefixChars ");".data line then { st with inDef := false, current := none }
    else if containsChars "PRIMARY KEY".data (upperChars line) then
      match searchKeyParen "PRIMARY KEY".data line with
      | some content =>
        match st.current with
        | some t =>
          { st with schemas := dictUpdate st.schemas t (fun s =>
              { s with primary_keys := s.primary_keys ++ splitKeys content }) }
        | none => st
      | none => st
    else if containsChars "FOREIGN KEY".data (upperChars line) then
      match searchKeyParen "FOREIGN KEY".data line with
      | some content =>
        match st.current with
        | some t =>
          { st with schemas := dictUpdate st.schemas t (fun s =>
              { s with foreign_keys := s.foreign_keys ++ splitKeys content }) }
        | none => st
      | none => st
    else
      match matchName line with
      | some w =>
        if String.mk (upperChars w.data) ∈ reservedWords then st
        else
          match st.current with
          | some t =>
            { st with schemas := dictUpdate st.schemas t (fun s =>
                { s with columns := s.columns ++ [w] }) }
          | none => st
      | none => st
  else st

def initParserState : ParserState := ⟨[], none, false⟩

/-- Embedding of `util.get_table_schemas_from_sql` over the file's lines. -/
def get_table_schemas_from_sql (lines : List String) : List (String × TableSchema) :=
  (lines.foldl processLine initParserState).schemas

/-- The primary/foreign-key identifiers a line contributes (used to state the
hypothesis of the amended invariant). -/
def lineKeys (rawLine : String) : List String :=
  let line := pyStripChars rawLine.data
  if line.isEmpty || isPrefixChars "--".data line then []
  else if isPrefixChars "CREATE TABLE".data (upperChars line) then []
  else if isPrefixChars ");".data line then []
  else if containsChars "PRIMARY KEY".data (upperChars line) then
    match searchKeyParen "PRIMARY KEY".data line with
    | some content => splitKeys content
    | none => []
  else if containsChars "FOREIGN KEY".data (upperChars line) then
    match searchKeyParen "FOREIGN KEY".data line with
    | some content => splitKeys content
    | none => []
  else []

/-- The DDL is well-ordered for the scanner: along the scan, every key clause
names only columns already recorded for the current table (constraints appear
after their columns, the usual DDL layout). -/
def keysOkB : ParserState → List String → Bool
  | _, [] => true
  | st, l :: ls =>
    (match st.current with
     | some t =>
       match dictFind st.schemas t with
       | some sch => (lineKeys l).all (fun k => sch.columns.contains k)
       | none => true
     | none => true)
    && keysOkB (processLine st l) ls

/-- The claimed invariant for one parsed table. -/
def SchemaInv (sch : TableSchema) : Prop :=
  (∀ k ∈ sch.primary_keys, k ∈ sch.columns) ∧ (∀ k ∈ sch.foreign_keys, k ∈ sch.columns)

/-- Scanner-state invariant: every recorded schema satisfies the key-subset
invariant, table names are unique in the dictionary, and the current table is
always recorded. -/
def StateInv (st : ParserState) : Prop :=
  (∀ p ∈ st.schemas, SchemaInv p.2)
  ∧ (st.schemas.map Prod.fst).Nodup
  ∧ (∀ t, st.current = some t → ∃ sch, dictFind st.schemas t = some sch)

lemma mem_dictInsert (d : List (String × TableSchema)) (k : String) (v : TableSchema) :
    ∀ p ∈ dictInsert d k v, p = (k, v) ∨ p ∈ d := by
  intro p hp
  unfold dictInsert at hp
  by_cases hany : d.any (fun p => decide (p.1 = k))
  · rw [if_pos hany] at hp
    rcases List.mem_map.mp hp with ⟨q, hq, hfq⟩
    by_cases hqk : q.1 = k
    · left
      rw [if_pos hqk] at hfq
      exact hfq.symm
    · right
      rw [if_neg hqk] at hfq
      exact hfq ▸ hq
  · rw [if_neg hany] at hp
    rcases List.mem_append.mp hp with h | h
    · exact Or.inr h
    · exact Or.inl (by simpa using h)

lemma dictInsert_keys (d : List (String × TableSchema)) (k : String) (v : TableSchema) :
    (dictInsert d k v).map Prod.fst
      = if d.any (fun p => decide (p.1 = k)) then d.map Prod.fst
        else d.map Prod.fst ++ [k] := by
  unfold dictInsert
  by_cases hany : d.any (fun p => decide (p.1 = k))
  · rw [if_pos hany, if_pos hany, List.map_map]
    apply List.map_congr_left
    intro q _
    by_cases hqk : q.1 = k <;> simp [hqk]
  · rw [if_neg hany, if_neg hany]
    simp

lemma dictInsert_keys_nodup (d : List (String × TableSchema)) (k : String) (v : TableSchema)
    (h : (d.map Prod.fst).Nodup) : ((dictInsert d k v).map Prod.fst).Nodup := by
  rw [dictInsert_keys]
  by_cases hany : d.any (fun p => decide (p.1 = k))
  · rw [if_pos hany]
    exact h
  · rw [if_neg hany]
    have hnone : ∀ q ∈ d, ¬(q.1 = k) := by
      intro q hq hc
      exact hany (List.any_eq_true.mpr ⟨q, hq, by simpa using hc⟩)
    have hnk : k ∉ d.map Prod.fst := by
      intro hmem
      rcases List.mem_map.mp hmem with ⟨q, hq, hfq⟩
      exact hnone q hq hfq
    simp only [List.nodup_append, List.nodup_cons, List.nodup_nil, and_true, true_and]
    refine ⟨h, by simp, ?_⟩
    intro a ha
    simp only [List.mem_singleton]
    intro hak
    exact hnk (hak ▸ ha)

lemma dictFind_dictInsert_self (d : List (String × TableSchema)) (k : String)
    (v : TableSchema) : dictFind (dictInsert d k v) k = some v := by
  unfold dictFind dictInsert
  by_cases hany : d.any (fun p => decide (p.1 = k))
  · rw [if_pos hany]
    induction d with
    | nil => simp at hany
    | cons q d' ih =>
      by_cases hqk : q.1 = k
      · simp [List.find?_cons, hqk]
      · have hany' : d'.any (fun p => decide (p.1 = k)) := by
          rcases List.any_eq_true.mp hany with ⟨r, hr, hrk⟩
          rcases List.mem_cons.mp hr with hr | hr
          · exact absurd (of_decide_eq_true (hr ▸ hrk)) hqk
          · exact List.any_eq_true.mpr ⟨r, hr, hrk⟩
        simpa [List.find?_cons, hqk] using ih hany'
  · rw [if_neg hany]
    have hnone : ∀ q ∈ d, ¬(q.1 = k) := by
      intro q hq hc
      exact hany (List.any_eq_true.mpr ⟨q, hq, by simpa using hc⟩)
    induction d with
    | nil => simp
    | cons q d' ih =>
      have hqk : ¬(q.1 = k) := hnone q (List.mem_cons_self q d')
      have hnone' : ∀ r ∈ d', ¬(r.1 = k) := fun r hr => hnone r (List.mem_cons_of_mem q hr)
      simpa [List.find?_cons, hqk] using ih (by
        intro hc
        rcases List.any_eq_true.mp hc with ⟨r, hr, hrk⟩
        exact hnone' r hr (of_decide_eq_true hrk)) hnone'

lemma dictUpdate_keys (d : List (String × TableSchema)) (k : String)
    (f : TableSchema → TableSchema) :
    (dictUpdate d k f).map Prod.fst = d.map Prod.fst := by
  unfold dictUpdate
  rw [List.map_map]
  apply List.map_congr_left
  intro q _
  by_cases hqk : q.1 = k <;> simp [hqk]

lemma mem_dictUpdate (d : List (String × TableSchema)) (k : String)
    (f : TableSchema → TableSchema) :
    ∀ p ∈ dictUpdate d k f, p ∈ d ∨ ∃ q ∈ d, q.1 = k ∧ p = (q.1, f q.2) := by
  intro p hp
  rcases List.mem_map.mp hp with ⟨q, hq, hfq⟩
  by_cases hqk : q.1 = k
  · right
    exact ⟨q, hq, hqk, by rw [← hfq, if_pos hqk]⟩
  · left
    rw [if_neg hqk] at hfq
    exact hfq ▸ hq

lemma dictFind_dictUpdate (d : List (String × TableSchema)) (k t : String)
    (f : TableSchema → TableSchema) :
    dictFind (dictUpdate d k f) t
      = (dictFind d t).map (fun s => if t = k then f s else s) := by
  unfold dictFind dictUpdate
  induction d with
  | nil => simp
  | cons q d' ih =>
    by_cases hqt : q.1 = t
    · by_cases hqk : q.1 = k
      · have htk : t = k := by rw [← hqt, hqk]
        simp [List.find?_cons, hqt, hqk, htk]
      · have htk : ¬(t = k) := by rw [← hqt]; exact hqk
        simp [List.find?_cons, hqt, hqk, htk]
    · by_cases hqk : q.1 = k
      · have hkt : ¬(k = t) := fun hc => hqt (by rw [hqk, hc])
        simpa [List.find?_cons, hqt, hqk, hkt] using ih
      · simpa [List.find?_cons, hqt, hqk] using ih

lemma dictFind_unique (d : List (String × TableSchema))
    (hnd : (d.map Prod.fst).Nodup) (q : String × TableSchema) (hq : q ∈ d) :
    dictFind d q.1 = some q.2 := by
  unfold dictFind
  induction d with
  | nil => exact absurd hq (List.not_mem_nil q)
  | cons p d' ih =>
    rw [List.map_cons, List.nodup_cons] at hnd
    rcases List.mem_cons.mp hq with hq | hq
    · subst hq
      simp [List.find?_cons]
    · have hpq : ¬(p.1 = q.1) := by
        intro hc
        exact hnd.1 (hc ▸ List.mem_map.mpr ⟨q, hq, rfl⟩)
      simpa [List.find?_cons, hpq] using ih hnd.2 hq

lemma dictFind_mem (d : List (String × TableSchema)) (t : String) (sch : TableSchema)
    (h : dictFind d t = some sch) : (t, sch) ∈ d := by
  unfold dictFind at h
  rcases Option.map_eq_some'.mp h with ⟨q, hq, hsnd⟩
  have hmem := List.mem_of_find?_eq_some hq
  have hfst : q.1 = t := by simpa using List.find?_some hq
  have : q = (t, sch) := by
    cases q
    simp_all
  exact this ▸ hmem

lemma stateInv_create (st : ParserState) (name : String) (hInv : StateInv st) :
    StateInv ⟨dictInsert st.schemas name emptySchema, some name, true⟩ := by
  refine ⟨?_, dictInsert_keys_nodup _ _ _ hInv.2.1, ?_⟩
  · intro p hp
    rcases mem_dictInsert _ _ _ p hp with h | h
    · rw [h]
      exact ⟨by simp [emptySchema], by simp [emptySchema]⟩
    · exact hInv.1 p h
  · intro t ht
    have : name = t := by simpa using ht
    subst this
    exact ⟨emptySchema, dictFind_dictInsert_self _ _ _⟩

lemma stateInv_update (st : ParserState) (t : String) (f : TableSchema → TableSchema)
    (hInv : StateInv st)
    (hf : ∀ s, SchemaInv s → dictFind st.schemas t = some s → SchemaInv (f s)) :
    StateInv { st with schemas := dictUpdate st.schemas t f } := by
  refine ⟨?_, ?_, ?_⟩
  · intro p hp
    rcases mem_dictUpdate _ _ _ p hp with h | ⟨q, hq, hqk, hpq⟩
    · exact hInv.1 p h
    · subst hpq
      have hfind : dictFind st.schemas q.1 = some q.2 :=
        dictFind_unique _ hInv.2.1 q hq
      rw [hqk] at hfind
      exact hf q.2 (hInv.1 q hq) hfind
  · rw [dictUpdate_keys]
    exact hInv.2.1
  · intro t2 ht2
    rcases hInv.2.2 t2 ht2 with ⟨sch, hsch⟩
    rw [dictFind_dictUpdate, hsch]
    exact ⟨_, rfl⟩

lemma processLine_preserves (st : ParserState) (l : String)
    (hInv : StateInv st)
    (hk : ∀ t sch, st.current = some t → dictFind st.schemas t = some sch →
          ∀ k ∈ lineKeys l, k ∈ sch.columns) :
    StateInv (processLine st l) := by
  unfold processLine
  by_cases h1 : (pyStripChars l.data).isEmpty
      || isPrefixChars "--".data (pyStripChars l.data)
  · rw [if_pos h1]
    exact hInv
  · rw [if_neg h1]
    by_cases h2 : isPrefixChars "CREATE TABLE".data (upperChars (pyStripChars l.data))
    · rw [if_pos h2]
      cases hsearch : searchCreateTable (pyStripChars l.data) with
      | none => exact hInv
      | some name => exact stateInv_create st name hInv
    · rw [if_neg h2]
      by_cases h3 : st.inDef
      · rw [if_pos h3]
        by_cases h4 : isPrefixChars ");".data (pyStripChars l.data)
        · rw [if_pos h4]
          refine ⟨hInv.1, hInv.2.1, ?_⟩
          intro t ht
          simp at ht
        · rw [if_neg h4]
          by_cases h5 : containsChars "PRIMARY KEY".data (upperChars (pyStripChars l.data))
          · rw [if_pos h5]
            cases hsk : searchKeyParen "PRIMARY KEY".data (pyStripChars l.data) with
            | none => exact hInv
            | some content =>
              cases hcur : st.current with
              | none => exact hInv
              | some t =>
                simp only []
                rw [← hcur]
                apply stateInv_update st t _ hInv
                intro s hs hfind
                have hkeys : ∀ k ∈ splitKeys content, k ∈ s.columns := by
                  intro k hkmem
                  apply hk t s hcur hfind
                  unfold lineKeys
                  rw [if_neg h1, if_neg h2, if_neg h4, if_pos h5, hsk]
                  exact hkmem
                refine ⟨?_, hs.2⟩
                intro k hkmem
                rcases List.mem_append.mp hkmem with h | h
                · exact hs.1 k h
                · exact hkeys k h
          · rw [if_neg h5]
            by_cases h6 : containsChars "FOREIGN KEY".data (upperChars (pyStripChars l.data))
            · rw [if_pos h6]
              cases hsk : searchKeyParen "FOREIGN KEY".data (pyStripChars l.data) with
              | none => exact hInv
              | some content =>
                cases hcur : st.current with
                | none => exact hInv
                | some t =>
                  simp only []
                  rw [← hcur]
                  apply stateInv_update st t _ hInv
                  intro s hs hfind
                  have hkeys : ∀ k ∈ splitKeys content, k ∈ s.columns := by
                    intro k hkmem
                    apply hk t s hcur hfind
                    unfold lineKeys
                    rw [if_neg h1, if_neg h2, if_neg h4, if_neg h5, if_pos h6, hsk]
                    exact hkmem
                  refine ⟨hs.1, ?_⟩
                  intro k hkmem
                  rcases List.mem_append.mp hkmem with h | h
                  · exact hs.2 k h
                  · exact hkeys k h
            · rw [if_neg h6]
              cases hname : matchName (pyStripChars l.data) with
              | none => exact hInv
              | some w =>
                simp only []
                by_cases h7 : String.mk (upperChars w.data) ∈ reservedWords
                · rw [if_pos h7]
                  exact hInv
                · rw [if_neg h7]
                  cases hcur : st.current with
                  | none => exact hInv
                  | some t =>
                    simp only []
                    rw [← hcur]
                    apply stateInv_update st t _ hInv
                    intro s hs _
                    exact ⟨fun k hk2 => List.mem_append_left _ (hs.1 k hk2),
                           fun k hk2 => List.mem_append_left _ (hs.2 k hk2)⟩
      · rw [if_neg h3]
        exact hInv

lemma foldl_processLine_preserves (lines : List String) (st : ParserState)
    (hInv : StateInv st) (h : keysOkB st lines = true) :
    StateInv (lines.foldl processLine st) := by
  induction lines generalizing st with
  | nil => simpa using hInv
  | cons l ls ih =>
    rw [List.foldl_cons]
    unfold keysOkB at h
    rw [Bool.and_eq_true] at h
    rcases h with ⟨hcond, hrest⟩
    refine ih (processLine st l) (processLine_preserves st l hInv ?_) hrest
    intro t sch hcur hfind k hkmem
    rw [hcur] at hcond
    simp only [] at hcond
    rw [hfind] at hcond
    simp only [] at hcond
    have := List.all_eq_true.mp hcond k hkmem
    simpa using this

/-- C4 amended: the scanner records primary/foreign-key names verbatim from
the key clauses without checking them against the column list, so the subset
invariant holds exactly when each key clause names only columns of its table;
in particular, for every DDL input in which every `PRIMARY KEY`/`FOREIGN KEY`
clause names only columns already recorded for the current table (the usual
columns-before-constraints layout, captured by `keysOkB`), every parsed
schema satisfies `primary_keys ⊆ columns` and `foreign_keys ⊆ columns`. -/
theorem get_table_schemas_keys_subset (lines : List String)
    (h : keysOkB initParserState lines = true) :
    ∀ t sch, dictFind (get_table_schemas_from_sql lines) t = some sch →
      (∀ k ∈ sch.primary_keys, k ∈ sch.columns)
      ∧ (∀ k ∈ sch.foreign_keys, k ∈ sch.columns) := by
  intro t sch hfind
  have hInv0 : StateInv initParserState := by
    refine ⟨?_, ?_, ?_⟩
    · intro p hp
      simp [initParserState] at hp
    · simp [initParserState]
    · intro t2 ht2
      simp [initParserState] at ht2
  have hInv := foldl_processLine_preserves lines initParserState hInv0 h
  exact hInv.1 (t, sch) (dictFind_mem _ _ _ hfind)

/-- C4 counterexample: a `PRIMARY KEY` clause naming an undeclared column is
recorded verbatim — the parser performs no membership check — so this DDL
input yields a schema with `primary_keys ⊄ columns`, refuting the invariant
for arbitrary DDL inputs. -/
theorem get_table_schemas_pk_not_subset :
    get_table_schemas_from_sql ["CREATE TABLE t (", "a INT,", "PRIMARY KEY (b)", ");"]
      = [("t", ⟨["a"], ["b"], []⟩)]
    ∧ ¬(∀ k ∈ (["b"] : List String), k ∈ (["a"] : List String)) :=
  ⟨by decide, by decide⟩

/-- C4 witness: a well-formed table whose key clause follows its columns
satisfies both the side condition and the invariant. -/
theorem get_table_schemas_keys_subset_witness :
    keysOkB initParserState ["CREATE TABLE company (", "ticker VARCHAR(10),",
      "company_name TEXT,", "PRIMARY KEY (ticker)", ");"] = true
    ∧ ∀ k ∈ (TableSchema.mk ["ticker", "company_name"] ["ticker"] []).primary_keys,
        k ∈ (TableSchema.mk ["ticker", "company_name"] ["ticker"] []).columns :=
  ⟨by decide,
   (get_table_schemas_keys_subset ["CREATE TABLE company (", "ticker VARCHAR(10),",
      "company_name TEXT,", "PRIMARY KEY (ticker)", ");"] (by decide) "company"
      ⟨["ticker", "company_name"], ["ticker"], []⟩ (by decide)).1⟩

/-! ## Startup failure behaviour (C5)

`get_table_schemas_from_sql` wraps its file access in
`except FileNotFoundError: print(...); return None` — it never raises
(src/util/utility.py lines 243-248).  The orchestrator nevertheless aborts on
a missing schema file, because its constructor builds the `DBInterface`
first, whose `_create_table` opens the same file with no handler
(src/DBInterface/DBInterface.py lines 45-54, called from
src/DataOrchestrator/DataOrchestrator.py lines 59-60).  The per-table load
loop of `run` (lines 222-223) also has no handler, so a load failure
likewise terminates the run. -/

/-- Exception boundary of `get_table_schemas_from_sql`: `none` models an
unopenable file; the function catches the error and returns `None` without
raising. -/
def getTableSchemasCatching (file : Option (List String)) :
    Except String (Option (List (String × TableSchema))) :=
  match file with
  | none => Except.ok none
  | some lines => Except.ok (some (get_table_schemas_from_sql lines))

/-- `DBInterface._create_table`: opens the schema file with no handler, so an
unopenable file propagates the I/O error. -/
def dbInterfaceCreateTable (file : Option (List String)) : Except String Unit :=
  match file with
  | none => Except.error "FileNotFoundError"
  | some _ => Except.ok ()

/-- Startup order of `DataOrchestrator.__init__`: the `DBInterface` (which
executes the schema file) is constructed before the catalog is parsed. -/
def dataOrchestratorStartup (file : Option (List String)) :
    Except String (Option (List (String × TableSchema))) :=
  match dbInterfaceCreateTable file with
  | Except.error e => Except.error e
  | Except.ok _ => getTableSchemasCatching file

/-- The load loop of `DataOrchestrator.run`: one `dump_data_to_db` call per
table with no handler, so the first failing load propagates. -/
def loadPhase : List (Except String Unit) → Except String Unit
  | [] => Except.ok ()
  | Except.ok _ :: rest => loadPhase rest
  | Except.error e :: _ => Except.error e

/-- C5 counterexample: with an unopenable schema file, the catalog build
returns normally (`None`) — it does not fail with an I/O error. -/
theorem get_table_schemas_missing_file_returns_none :
    getTableSchemasCatching none = Except.ok none
    ∧ ∀ e : String, getTableSchemasCatching none ≠ Except.error e :=
  ⟨rfl, fun _ h => Except.noConfusion h⟩

/-- C5 amended: the catalog build itself swallows the I/O error and returns
`None`; the run still aborts at startup because `DBInterface._create_table`,
invoked before the catalog build, propagates the error; and an I/O failure at
startup is not the only terminating error class — an unhandled load failure
in the load loop also terminates the run. -/
theorem missing_schema_file_aborts_startup :
    getTableSchemasCatching none = Except.ok none
    ∧ dataOrchestratorStartup none = Except.error "FileNotFoundError"
    ∧ (∀ lines, dataOrchestratorStartup (some lines)
        = Except.ok (some (get_table_schemas_from_sql lines)))
    ∧ loadPhase [Except.error "DatabaseError"] = Except.error "DatabaseError" :=
  ⟨rfl, rfl, fun _ => rfl, rfl⟩

end Vnstock
